import Mathlib

/-!
Verification of `kuma/core/middleware.py` (kuma, the MDN platform):
a chain of Django HTTP request/response middleware components.

The Python classes are embedded shallowly: requests and responses become
Lean structures, header dictionaries become association lists with
case-insensitive keys (Django's `HttpResponse` headers are
case-insensitive), `request.META` becomes an association list with exact
keys (WSGI keys are exact), and external library functions (Brotli
compression, Django URL resolution, `iri_to_uri`, `urljoin`, the parent
`GZipMiddleware`) become function parameters so every theorem holds for
any behaviour of the external code.
-/

set_option maxRecDepth 100000

namespace Kuma

/-! ### String primitives

ASCII lowercasing, comma splitting, whitespace stripping and the other
Python/Django string operations the middleware relies on, written by
structural recursion over the character list of the string. -/

/-- ASCII `lower()` on one character (HTTP header names are ASCII). -/
def charLower (c : Char) : Char :=
  if 'A' ≤ c ∧ c ≤ 'Z' then Char.ofNat (c.toNat + 32) else c

/-- ASCII `s.lower()`. -/
def strLower (s : String) : String :=
  ⟨s.data.map charLower⟩

/-- Split a character list at every `','`, as Python's `split(',')`:
never empty, keeps empty segments. -/
def splitCommaAux (cur : List Char) : List Char → List (List Char)
  | [] => [cur.reverse]
  | c :: cs => if c == ',' then cur.reverse :: splitCommaAux [] cs
               else splitCommaAux (c :: cur) cs

/-- Python's `s.split(',')`. -/
def splitComma (s : String) : List String :=
  (splitCommaAux [] s.data).map (fun l => ⟨l⟩)

/-- The whitespace characters of Python's `str.strip()` and of the `\s`
class of its `re` module. -/
def isPySpace (c : Char) : Bool :=
  c == ' ' || c == '\t' || c == '\n' || c == '\r' || c == '\x0b' || c == '\x0c'

/-- Python's `s.strip()`: remove leading and trailing whitespace. -/
def pyStrip (s : String) : String :=
  ⟨((s.data.dropWhile isPySpace).reverse.dropWhile isPySpace).reverse⟩

/-- Python's `s.endswith('/')`. -/
def endsWithSlash (s : String) : Bool :=
  s.data.getLast? == some '/'

/-- Python's `s[:-1]`: the string without its last character. -/
def dropLast1 (s : String) : String :=
  ⟨s.data.dropLast⟩

/-! ### Header and META dictionaries -/

/-- Case-insensitive lookup in an HTTP-header association list
(Django response headers are case-insensitive). -/
def headerGet (hs : List (String × String)) (k : String) : Option String :=
  (hs.find? (fun p => strLower p.1 == strLower k)).map (·.2)

/-- Case-insensitive update of an HTTP-header association list: replaces
every entry whose key matches case-insensitively, or appends a new entry. -/
def headerSet (hs : List (String × String)) (k v : String) : List (String × String) :=
  if hs.any (fun p => strLower p.1 == strLower k) then
    hs.map (fun p => if strLower p.1 == strLower k then (k, v) else p)
  else
    hs ++ [(k, v)]

/-- Django's `response.has_header(k)`. -/
def hasHeader (hs : List (String × String)) (k : String) : Bool :=
  (headerGet hs k).isSome

/-- Exact-key lookup in `request.META`. -/
def metaGet (m : List (String × String)) (k : String) : Option String :=
  (m.find? (fun p => p.1 == k)).map (·.2)

/-- Exact-key lookup in `request.META` with a default, as `META.get(k, d)`. -/
def metaGetD (m : List (String × String)) (k d : String) : String :=
  (metaGet m k).getD d

/-- Exact-key update of `request.META`, as `META[k] = v`. -/
def metaSet (m : List (String × String)) (k v : String) : List (String × String) :=
  if m.any (fun p => p.1 == k) then
    m.map (fun p => if p.1 == k then (k, v) else p)
  else
    m ++ [(k, v)]

/-! ### Settings, requests and responses -/

/-- The slice of `django.conf.settings` the middleware reads. -/
structure Settings where
  LANGUAGES : List (String × String)
  LANGUAGE_CODE : String
  ENABLE_RESTRICTIONS_BY_HOST : Bool
  LEGACY_HOSTS : List String
  SITE_URL : String
  deriving Repr, DecidableEq

/-- A Django `HttpRequest`, restricted to the fields this file touches.
`host` is `request.get_host()` and `full_path` is
`request.get_full_path()`; `urlconf` is the optional `request.urlconf`
attribute read by `getattr(request, 'urlconf', None)`. -/
structure Request where
  path : String
  path_info : String
  META : List (String × String)
  GET : List (String × String)
  urlconf : Option String
  host : String
  full_path : String
  LANGUAGE_CODE : String
  deriving Repr, DecidableEq

/-- A Django `HttpResponse`. `forbiddenInstance` records whether the
object is an instance of `HttpResponseForbidden` (the class tag tested by
`isinstance`); `streaming` is the `.streaming` attribute; `content` is the
body as bytes. -/
structure Response where
  status_code : Nat
  streaming : Bool
  headers : List (String × String)
  content : List Nat
  forbiddenInstance : Bool
  deriving Repr, DecidableEq

/-- Django's `HttpResponseRedirect(url)`: a fresh 302 response with a Location header. -/
def HttpResponseRedirect (url : String) : Response :=
  { status_code := 302, streaming := false, headers := [("Location", url)]
    content := [], forbiddenInstance := false }

/-- Django's `HttpResponsePermanentRedirect(url)`: a fresh 301 response with a
Location header. -/
def HttpResponsePermanentRedirect (url : String) : Response :=
  { status_code := 301, streaming := false, headers := [("Location", url)]
    content := [], forbiddenInstance := false }

/-! ### `BrotliMiddleware` -/

/-- The constant `BrotliMiddleware.MIN_LEN_RESPONSE_TO_PROCESS`. -/
def MIN_LEN_RESPONSE_TO_PROCESS : Nat := 200

/-- Word characters of the Python 2 `re` module without `re.UNICODE`:
`[a-zA-Z0-9_]`. -/
def isWordChar (c : Char) : Bool :=
  c.isAlpha || c.isDigit || c == '_'

/-- Whether `RE_ACCEPT_ENCODING_BROTLI = re.compile(r'\bbr\b')` matches at
the head of `l`, where `prev` is the character just before `l` (none at
the start of the string): the two word boundaries require a non-word
character (or the string edge) on both sides of `br`. -/
def brMatchHere (prev : Option Char) (l : List Char) : Bool :=
  match l with
  | 'b' :: 'r' :: rest =>
      (match prev with
       | none => true
       | some c => !isWordChar c) &&
      (match rest with
       | [] => true
       | c :: _ => !isWordChar c)
  | _ => false

/-- Search for a `\bbr\b` match anywhere in the character list, threading
the previous character for the left word boundary. -/
def brSearch (prev : Option Char) : List Char → Bool
  | [] => false
  | c :: cs => brMatchHere prev (c :: cs) || brSearch (some c) cs

/-- The method `BrotliMiddleware._accepts_brotli_encoding(request)`: the regex
`\bbr\b` searched in `request.META.get('HTTP_ACCEPT_ENCODING', '')`. -/
def accepts_brotli_encoding (req : Request) : Bool :=
  brSearch none (metaGetD req.META "HTTP_ACCEPT_ENCODING" "").data

/-- Django's `django.utils.cache.patch_vary_headers(response, newheaders)`:
splits the existing `Vary` header on `\s*,\s*` (embedded as a comma split
followed by a whitespace strip of each part), appends the new headers
whose lowercase form is not already present, and joins with `', '`. -/
def patch_vary_headers (resp : Response) (newheaders : List String) : Response :=
  let vary_headers :=
    match headerGet resp.headers "Vary" with
    | some v => (splitComma v).map pyStrip
    | none => []
  let additional := newheaders.filter
    (fun h => !(vary_headers.any (fun v => strLower v == strLower h)))
  { resp with headers :=
      headerSet resp.headers "Vary" (", ".intercalate (vary_headers ++ additional)) }

/-- The compression stage of `BrotliMiddleware.process_response`
(lines 267–277): compress, keep the original when compression did not
shrink the body, otherwise install the compressed body and the
`Content-Length`, `Content-Encoding` and `Vary` headers.  `compress` is
`brotli.compress(·, quality=5)`, kept abstract. -/
def brotli_compress_stage (compress : List Nat → List Nat) (resp : Response) : Response :=
  let compressed_content := compress resp.content
  if compressed_content.length ≥ resp.content.length then
    resp
  else
    let r1 := { resp with content := compressed_content }
    let r2 := patch_vary_headers r1 ["Accept-Encoding"]
    let h3 := headerSet r2.headers "Content-Length" (toString compressed_content.length)
    let r3 := { r2 with headers := h3 }
    { r3 with headers := headerSet r3.headers "Content-Encoding" "br" }

/-- The method `BrotliMiddleware.process_response(request, response)`. -/
def brotli_process_response (compress : List Nat → List Nat)
    (req : Request) (resp : Response) : Response :=
  if resp.streaming ||
      hasHeader resp.headers "Content-Encoding" ||
      !accepts_brotli_encoding req ||
      resp.content.length < MIN_LEN_RESPONSE_TO_PROCESS then
    resp
  else
    brotli_compress_stage compress resp

/-! ### `Forbidden403Middleware` -/

/-- The method `Forbidden403Middleware.process_response(request, response)`:
`isinstance(response, HttpResponseForbidden)` selects the `handler403`
page; `handler403` (kuma.core.views, external to this file) is abstract. -/
def forbidden403_process_response (handler403 : Request → Response)
    (req : Request) (resp : Response) : Response :=
  if resp.forbiddenInstance then handler403 req else resp

/-! ### `is_valid_path`, `safe_query_string` and `RemoveSlashMiddleware` -/

/-- The helper `is_valid_path(request, path)`: `resolves urlconf path` stands for
`django.core.urlresolvers.resolve(path, urlconf)` succeeding (no
`Resolver404`); the resolver itself is external and abstract. -/
def is_valid_path (resolves : Option String → String → Bool)
    (req : Request) (path : String) : Bool :=
  resolves req.urlconf path

/-- The context manager `safe_query_string(request)` as a context-manager combinator: it reads
`QUERY_STRING`, replaces it by its `iri_to_uri` encoding, runs the body
(which may finish with a value or raise, either way returning the request
it mutated), and restores the original value in a `finally` on both
paths.  `iriToUri` is Django's `iri_to_uri`, kept abstract. -/
def safe_query_string {ε α : Type} (iriToUri : String → String)
    (body : Request → Except (ε × Request) (α × Request)) (req : Request) :
    Except (ε × Request) (α × Request) :=
  let qs := metaGetD req.META "QUERY_STRING" ""
  let req1 := { req with META := metaSet req.META "QUERY_STRING" (iriToUri qs) }
  match body req1 with
  | .ok (a, r) => .ok (a, { r with META := metaSet r.META "QUERY_STRING" qs })
  | .error (e, r) => .error (e, { r with META := metaSet r.META "QUERY_STRING" qs })

/-- The method `RemoveSlashMiddleware.process_response(request, response)`, returning
the response together with the (possibly mutated, then restored) request.
The body inside the `with safe_query_string(request)` block appends
`'?' + request.META['QUERY_STRING']` to the redirect target and cannot
raise, so its error type is `Empty`. -/
def removeSlash_process_response (resolves : Option String → String → Bool)
    (iriToUri : String → String) (req : Request) (resp : Response) :
    Response × Request :=
  if resp.status_code == 404 &&
      endsWithSlash req.path_info &&
      !is_valid_path resolves req req.path_info &&
      is_valid_path resolves req (dropLast1 req.path_info) then
    let newurl := dropLast1 req.path
    if req.GET.isEmpty then
      (HttpResponsePermanentRedirect newurl, req)
    else
      match safe_query_string (ε := Empty) iriToUri
          (fun r => .ok (newurl ++ "?" ++ metaGetD r.META "QUERY_STRING" "", r)) req with
      | .ok (u, r) => (HttpResponsePermanentRedirect u, r)
      | .error (e, _) => e.elim
  else
    (resp, req)

/-! ### `SetRemoteAddrFromForwardedFor` -/

/-- The method `SetRemoteAddrFromForwardedFor.process_request(request)`: on a
`KeyError` for `HTTP_X_FORWARDED_FOR` the request is untouched, otherwise
`REMOTE_ADDR` becomes the first comma-separated entry, stripped
(`forwarded_for.split(',')[0].strip()`; a Python `split` result is never
empty, so indexing with `0` is its head). -/
def setRemoteAddr_process_request (req : Request) : Request :=
  match metaGet req.META "HTTP_X_FORWARDED_FOR" with
  | none => req
  | some forwarded_for =>
      let first := pyStrip ((splitComma forwarded_for).headD "")
      { req with META := metaSet req.META "REMOTE_ADDR" first }

/-! ### `RestrictedEndpointsMiddleware` -/

/-- The method `RestrictedEndpointsMiddleware.process_request(request)`:
`is_untrusted` (kuma.core.utils, external to this file) is abstract. -/
def restrictedEndpoints_process_request (settings : Settings)
    (is_untrusted : Request → Bool) (req : Request) : Request :=
  if settings.ENABLE_RESTRICTIONS_BY_HOST && is_untrusted req then
    { req with urlconf := some "kuma.urls_untrusted" }
  else req

/-! ### `LegacyDomainRedirectsMiddleware` -/

/-- The method `LegacyDomainRedirectsMiddleware.process_request(request)`:
`urljoin` is `urlparse.urljoin`, kept abstract. -/
def legacyDomainRedirects_process_request (settings : Settings)
    (urljoin : String → String → String) (req : Request) : Option Response :=
  if settings.LEGACY_HOSTS.contains req.host then
    some (HttpResponsePermanentRedirect (urljoin settings.SITE_URL req.full_path))
  else none

/-! ### `GZipMiddleware` (ETag-preserving subclass) -/

/-- The method `kuma.core.middleware.GZipMiddleware.process_response(request,
response)`: records the incoming ETag, delegates to the parent Django
`GZipMiddleware.process_response` (abstract as `superProcess`), and copies
the original ETag back whenever both responses carry one. -/
def gzip_process_response (superProcess : Request → Response → Response)
    (req : Request) (resp : Response) : Response :=
  match headerGet resp.headers "etag" with
  | none => superProcess req resp
  | some e =>
      if hasHeader (superProcess req resp).headers "etag" then
        { superProcess req resp with
            headers := headerSet (superProcess req resp).headers "etag" e }
      else superProcess req resp

/-! ### `LocaleURLMiddleware` -/

/-- Modelled from the spec: `Prefixer` (kuma.core.urlresolvers, not under
src/) searches for the locale prefix of the URL, exposing the found
`locale`, the locale-stripped `shortened_path`, and `fix`, which rebuilds
a full path for the current locale.  The code mutates `prefixer.locale`
before calling `fix`, so the locale is an explicit first argument of
`fix` here. -/
structure PrefixerM where
  locale : String
  shortened_path : String
  fix : String → String → String

/-- Modelled from the spec: `urlparams` (kuma.core.utils, not under src/)
rebuilds a URL from a path and keyword query parameters, the query string
carrying exactly the given parameters. -/
def urlparams (path : String) (query : List (String × String)) : String :=
  if query.isEmpty then path
  else path ++ "?" ++ "&".intercalate (query.map (fun p => p.1 ++ "=" ++ p.2))

/-- Lines 52–74 of `LocaleURLMiddleware.process_request`: the code after
the `lang` branch.  `quote` is `urllib.quote`, `splitPath` is
`kuma.core.urlresolvers.split_path` (returning `(locale, rest)`), both
abstract.  Returns the optional redirect and the (possibly mutated)
request; `translation.activate` is an external thread-local effect with
no observable trace on the request or response, and is not modelled. -/
def locale_process_rest (settings : Settings) (quote : String → String)
    (splitPath : String → String × String) (prefixer : PrefixerM)
    (req : Request) : Option Response × Request :=
  let full_path := prefixer.fix prefixer.locale prefixer.shortened_path
  if full_path != req.path then
    let query_string := metaGetD req.META "QUERY_STRING" ""
    let fp := quote full_path
    let fp := if query_string != "" then fp ++ "?" ++ query_string else fp
    let response := HttpResponseRedirect fp
    let old_locale := prefixer.locale
    let new_locale := (splitPath fp).1
    let response :=
      if old_locale != new_locale then
        { response with headers := headerSet response.headers "Vary" "Accept-Language" }
      else response
    (some response, req)
  else
    let lang_code := if prefixer.locale == "" then settings.LANGUAGE_CODE else prefixer.locale
    (none, { req with path_info := "/" ++ prefixer.shortened_path, LANGUAGE_CODE := lang_code })

/-- The method `LocaleURLMiddleware.process_request(request)`.  `prefixerOf` stands
for the `Prefixer(request)` constructor.  `request.GET` is an association
list with one entry per key, as in the Python dict views; `lang in
dict(settings.LANGUAGES)` is membership of the language codes (the keys),
false when `lang` is `None`.  `smart_str` on the dict keys is the
identity in this string model. -/
def locale_process_request (settings : Settings) (quote : String → String)
    (splitPath : String → String × String) (prefixerOf : Request → PrefixerM)
    (req : Request) : Option Response × Request :=
  let prefixer := prefixerOf req
  let lang := (req.GET.find? (fun p => p.1 == "lang")).map (·.2)
  match lang with
  | some l =>
      if (settings.LANGUAGES.map (·.1)).contains l then
        let new_path := prefixer.fix "" prefixer.shortened_path
        let query := req.GET.filter (fun p => p.1 != "lang")
        (some (HttpResponseRedirect (urlparams new_path query)), req)
      else
        locale_process_rest settings quote splitPath prefixer req
  | none => locale_process_rest settings quote splitPath prefixer req

/-! ### Concrete fixtures

Concrete requests, responses and settings used to exercise the theorems
on closed inputs. -/

/-- A request whose client accepts Brotli (`Accept-Encoding: gzip, br`). -/
def reqBr : Request :=
  { path := "/en-US/docs/Web", path_info := "/docs/Web"
    META := [("HTTP_ACCEPT_ENCODING", "gzip, br")], GET := [], urlconf := none
    host := "developer.mozilla.org", full_path := "/en-US/docs/Web"
    LANGUAGE_CODE := "en-US" }

/-- A request whose `Accept-Encoding` contains `brX` but no whole-word `br`. -/
def reqNoBr : Request :=
  { reqBr with META := [("HTTP_ACCEPT_ENCODING", "gzip, brX")] }

/-- A 200-byte uncompressed response. -/
def bigResp : Response :=
  { status_code := 200, streaming := false, headers := []
    content := List.replicate 200 7, forbiddenInstance := false }

/-- A resolver that accepts exactly the path `/docs/Web`. -/
def c3resolves : Option String → String → Bool := fun _ p => p == "/docs/Web"

/-- A request for `/docs/Web/` (trailing slash) with a query string. -/
def c3req : Request :=
  { path := "/en-US/docs/Web/", path_info := "/docs/Web/"
    META := [("QUERY_STRING", "x=1")], GET := [("x", "1")], urlconf := none
    host := "developer.mozilla.org", full_path := "/en-US/docs/Web/?x=1"
    LANGUAGE_CODE := "en-US" }

/-- A plain 404 response. -/
def c3resp : Response :=
  { status_code := 404, streaming := false, headers := [], content := []
    forbiddenInstance := false }

/-- A request carrying an `X-Forwarded-For` list. -/
def c4req : Request :=
  { path := "/", path_info := "/"
    META := [("HTTP_X_FORWARDED_FOR", " 1.2.3.4 , 5.6.7.8"), ("REMOTE_ADDR", "10.0.0.1")]
    GET := [], urlconf := none, host := "developer.mozilla.org", full_path := "/"
    LANGUAGE_CODE := "en-US" }

/-- A 403 response that is not an `HttpResponseForbidden` instance
(as built by `HttpResponse(status=403)`). -/
def c5resp : Response :=
  { status_code := 403, streaming := false, headers := [], content := []
    forbiddenInstance := false }

/-- Settings with one legacy host. -/
def c6settings : Settings :=
  { LANGUAGES := [("en-US", "English")], LANGUAGE_CODE := "en-US"
    ENABLE_RESTRICTIONS_BY_HOST := false, LEGACY_HOSTS := ["developer.allizom.org"]
    SITE_URL := "https://developer.mozilla.org" }

/-- A request reaching a legacy host. -/
def c6req : Request :=
  { path := "/en-US/", path_info := "/", META := [], GET := [], urlconf := none
    host := "developer.allizom.org", full_path := "/en-US/?x=1"
    LANGUAGE_CODE := "en-US" }

/-- Settings with two configured languages. -/
def c7settings : Settings :=
  { LANGUAGES := [("en-US", "English"), ("fr", "Francais")], LANGUAGE_CODE := "en-US"
    ENABLE_RESTRICTIONS_BY_HOST := false, LEGACY_HOSTS := []
    SITE_URL := "https://developer.mozilla.org" }

/-- A prefixer that found the locale `fr` and stripped it from the path. -/
def c7prefixerOf : Request → PrefixerM := fun _ =>
  { locale := "fr", shortened_path := "docs/Web"
    fix := fun loc p => (if loc == "" then "" else "/" ++ loc) ++ "/" ++ p }

/-- A request with `?lang=en-US&q=2`. -/
def c7req : Request :=
  { path := "/fr/docs/Web", path_info := "/fr/docs/Web"
    META := [("QUERY_STRING", "lang=en-US&q=2")]
    GET := [("lang", "en-US"), ("q", "2")], urlconf := none
    host := "developer.mozilla.org", full_path := "/fr/docs/Web?lang=en-US&q=2"
    LANGUAGE_CODE := "fr" }

/-- Settings with host restrictions switched on. -/
def c8settings : Settings :=
  { LANGUAGES := [("en-US", "English")], LANGUAGE_CODE := "en-US"
    ENABLE_RESTRICTIONS_BY_HOST := true, LEGACY_HOSTS := []
    SITE_URL := "https://developer.mozilla.org" }

/-- Trust test: exactly `untrusted.example` is untrusted. -/
def c8untrusted : Request → Bool := fun r => r.host == "untrusted.example"

/-- A request from the untrusted host. -/
def c8req : Request :=
  { path := "/samples/x", path_info := "/samples/x", META := [], GET := []
    urlconf := none, host := "untrusted.example", full_path := "/samples/x"
    LANGUAGE_CODE := "en-US" }

/-- A parent `GZipMiddleware.process_response` that rewrites the ETag,
as Django's does when it gzips the body. -/
def c9sp : Request → Response → Response := fun _ r =>
  { r with headers := headerSet r.headers "ETag" "changed" }

/-- A response with an ETag. -/
def c9resp : Response :=
  { status_code := 200, streaming := false, headers := [("ETag", "orig")]
    content := [], forbiddenInstance := false }

/-- A plain request for the GZip fixture. -/
def c9req : Request :=
  { path := "/", path_info := "/", META := [], GET := [], urlconf := none
    host := "developer.mozilla.org", full_path := "/", LANGUAGE_CODE := "en-US" }

/-! ### Association-list lemmas -/

theorem assoc_find_replace {α : Type} (q : α → Bool) (b : α) (hqb : q b = true)
    (l : List α) (h : l.any q = true) :
    (l.map (fun x => if q x then b else x)).find? q = some b := by
  induction l with
  | nil => simp at h
  | cons x t ih =>
    by_cases hx : q x = true
    · simp [List.find?, hx, hqb]
    · simp only [List.any_cons, Bool.or_eq_true] at h
      have ht := h.resolve_left hx
      simp [List.find?, hx, ih ht]

theorem assoc_find_append {α : Type} (q : α → Bool) (b : α) (hqb : q b = true)
    (l : List α) (h : l.any q = false) :
    (l ++ [b]).find? q = some b := by
  induction l with
  | nil => simp [List.find?, hqb]
  | cons x t ih =>
    simp only [List.any_cons, Bool.or_eq_false_iff] at h
    simp [List.find?, h.1, ih h.2]

theorem assoc_find_replace_other {α : Type} (q q' : α → Bool) (b : α)
    (hb : q' b = false) (hc : ∀ x, q x = true → q' x = false) (l : List α) :
    (l.map (fun x => if q x then b else x)).find? q' = l.find? q' := by
  induction l with
  | nil => rfl
  | cons x t ih =>
    by_cases hx : q x = true
    · simp [List.find?, hx, hb, hc x hx, ih]
    · simp [List.find?, hx, ih]

theorem headerGet_headerSet_self (hs : List (String × String)) (k v : String) :
    headerGet (headerSet hs k v) k = some v := by
  unfold headerGet headerSet
  split
  · rw [assoc_find_replace _ (k, v) (by simp) hs ‹_›]
    rfl
  · rw [assoc_find_append _ (k, v) (by simp) hs (Bool.eq_false_iff.mpr ‹_›)]
    rfl

theorem headerGet_headerSet_other (hs : List (String × String)) (k v k' : String)
    (hne : strLower k ≠ strLower k') :
    headerGet (headerSet hs k v) k' = headerGet hs k' := by
  unfold headerGet headerSet
  split
  · rw [assoc_find_replace_other _ _ (k, v) (by simpa using hne) ?_ hs]
    intro x hx
    simp only [beq_iff_eq] at hx ⊢
    rw [hx]
    simpa using hne
  · rw [List.find?_append]
    have : List.find? (fun p => strLower p.1 == strLower k') [(k, v)] = none := by
      simpa using hne
    simp [this]

theorem metaGet_metaSet_self (m : List (String × String)) (k v : String) :
    metaGet (metaSet m k v) k = some v := by
  unfold metaGet metaSet
  split
  · rw [assoc_find_replace _ (k, v) (by simp) m ‹_›]
    rfl
  · rw [assoc_find_append _ (k, v) (by simp) m (Bool.eq_false_iff.mpr ‹_›)]
    rfl

theorem metaGetD_metaSet_self (m : List (String × String)) (k v d : String) :
    metaGetD (metaSet m k v) k d = v := by
  unfold metaGetD
  rw [metaGet_metaSet_self]
  rfl

/-! ### Lemmas about `BrotliMiddleware` -/

theorem brotli_process_of_skip (compress : List Nat → List Nat) (req : Request)
    (resp : Response)
    (h : resp.streaming = true ∨ hasHeader resp.headers "Content-Encoding" = true ∨
      accepts_brotli_encoding req = false ∨
      resp.content.length < MIN_LEN_RESPONSE_TO_PROCESS) :
    brotli_process_response compress req resp = resp := by
  unfold brotli_process_response
  have hc : (resp.streaming || hasHeader resp.headers "Content-Encoding" ||
      !accepts_brotli_encoding req ||
      decide (resp.content.length < MIN_LEN_RESPONSE_TO_PROCESS)) = true := by
    rcases h with h | h | h | h <;> simp [h]
  rw [if_pos hc]

theorem brotli_process_of_not_skip (compress : List Nat → List Nat) (req : Request)
    (resp : Response) (h1 : resp.streaming = false)
    (h2 : hasHeader resp.headers "Content-Encoding" = false)
    (h3 : accepts_brotli_encoding req = true)
    (h4 : ¬resp.content.length < MIN_LEN_RESPONSE_TO_PROCESS) :
    brotli_process_response compress req resp = brotli_compress_stage compress resp := by
  unfold brotli_process_response
  have hc : (resp.streaming || hasHeader resp.headers "Content-Encoding" ||
      !accepts_brotli_encoding req ||
      decide (resp.content.length < MIN_LEN_RESPONSE_TO_PROCESS)) = false := by
    simp [h1, h2, h3, h4]
  rw [if_neg (by simp [hc])]

theorem patch_vary_headers_content (r : Response) (l : List String) :
    (patch_vary_headers r l).content = r.content := rfl

theorem vary_parts_any (vh : List String) :
    (vh ++ ["Accept-Encoding"].filter
        (fun h => !(vh.any (fun v => strLower v == strLower h)))).any
      (fun v => strLower v == "accept-encoding") = true := by
  have hAE : strLower "Accept-Encoding" = "accept-encoding" := by decide
  simp only [List.any_append]
  by_cases hmem : vh.any (fun v => strLower v == "accept-encoding") = true
  · simp [hmem]
  · simp only [List.filter, hAE, Bool.eq_false_iff.mpr hmem]
    simp [hAE]

theorem patch_vary_adds_accept_encoding (resp : Response) :
    ∃ parts,
      headerGet (patch_vary_headers resp ["Accept-Encoding"]).headers "Vary" =
        some (", ".intercalate parts) ∧
      parts.any (fun v => strLower v == "accept-encoding") = true := by
  simp only [patch_vary_headers]
  exact ⟨_, headerGet_headerSet_self _ _ _, vary_parts_any _⟩

theorem brotli_stage_eq_self (compress : List Nat → List Nat) (resp : Response)
    (h : (compress resp.content).length ≥ resp.content.length) :
    brotli_compress_stage compress resp = resp := by
  unfold brotli_compress_stage
  rw [if_pos h]

theorem brotli_stage_content (compress : List Nat → List Nat) (resp : Response)
    (h : ¬(compress resp.content).length ≥ resp.content.length) :
    (brotli_compress_stage compress resp).content = compress resp.content := by
  unfold brotli_compress_stage
  rw [if_neg h]
  rfl

theorem brotli_stage_content_encoding (compress : List Nat → List Nat) (resp : Response)
    (h : ¬(compress resp.content).length ≥ resp.content.length) :
    headerGet (brotli_compress_stage compress resp).headers "Content-Encoding" =
      some "br" := by
  unfold brotli_compress_stage
  rw [if_neg h]
  exact headerGet_headerSet_self _ _ _

theorem brotli_stage_content_length (compress : List Nat → List Nat) (resp : Response)
    (h : ¬(compress resp.content).length ≥ resp.content.length) :
    headerGet (brotli_compress_stage compress resp).headers "Content-Length" =
      some (toString (compress resp.content).length) := by
  unfold brotli_compress_stage
  rw [if_neg h]
  show headerGet (headerSet (headerSet _ "Content-Length" _) "Content-Encoding" "br")
    "Content-Length" = _
  rw [headerGet_headerSet_other _ _ _ _ (by decide)]
  exact headerGet_headerSet_self _ _ _

theorem brotli_stage_vary (compress : List Nat → List Nat) (resp : Response)
    (h : ¬(compress resp.content).length ≥ resp.content.length) :
    ∃ parts,
      headerGet (brotli_compress_stage compress resp).headers "Vary" =
        some (", ".intercalate parts) ∧
      parts.any (fun v => strLower v == "accept-encoding") = true := by
  obtain ⟨parts, hget, hany⟩ :=
    patch_vary_adds_accept_encoding { resp with content := compress resp.content }
  refine ⟨parts, ?_, hany⟩
  unfold brotli_compress_stage
  rw [if_neg h]
  show headerGet (headerSet (headerSet _ "Content-Length" _) "Content-Encoding" "br")
    "Vary" = _
  rw [headerGet_headerSet_other _ _ _ _ (by decide),
    headerGet_headerSet_other _ _ _ _ (by decide)]
  exact hget

/-! ### Claim theorems -/

/-- C1: `BrotliMiddleware.process_response` returns the (non-streaming or
streaming) response completely unchanged when the response is streaming,
or already carries a `Content-Encoding` header, or the request's
`Accept-Encoding` does not contain the whole word `br`, or the body is
shorter than 200 bytes; only when none of these hold does it run the
Brotli compression stage. -/
theorem brotli_skip_conditions (compress : List Nat → List Nat) (req : Request)
    (resp : Response) :
    ((resp.streaming = true ∨ hasHeader resp.headers "Content-Encoding" = true ∨
        accepts_brotli_encoding req = false ∨
        resp.content.length < MIN_LEN_RESPONSE_TO_PROCESS) →
      brotli_process_response compress req resp = resp) ∧
    (resp.streaming = false → hasHeader resp.headers "Content-Encoding" = false →
      accepts_brotli_encoding req = true →
      ¬resp.content.length < MIN_LEN_RESPONSE_TO_PROCESS →
      brotli_process_response compress req resp = brotli_compress_stage compress resp) :=
  ⟨brotli_process_of_skip compress req resp,
   brotli_process_of_not_skip compress req resp⟩

theorem brotli_skip_conditions_witness :
    brotli_process_response (fun _ => []) reqNoBr bigResp = bigResp ∧
    brotli_process_response (fun _ => []) reqBr bigResp =
      brotli_compress_stage (fun _ => []) bigResp :=
  ⟨(brotli_skip_conditions (fun _ => []) reqNoBr bigResp).1
      (Or.inr (Or.inr (Or.inl (by decide)))),
   (brotli_skip_conditions (fun _ => []) reqBr bigResp).2 rfl (by decide) (by decide)
      (by decide)⟩

/-- C2: the response returned by `BrotliMiddleware.process_response` never
has a longer body than the input response; when Brotli compression does
not strictly shrink the body the original response is returned unchanged;
and when it does shrink it (and the compression stage is reached) the
returned response carries the compressed body, `Content-Encoding: br`,
`Content-Length` equal to the compressed length, and `Accept-Encoding`
among the members of the `Vary` header. -/
theorem brotli_length_spec (compress : List Nat → List Nat) (req : Request)
    (resp : Response) :
    (brotli_process_response compress req resp).content.length ≤ resp.content.length ∧
    ((compress resp.content).length ≥ resp.content.length →
      brotli_process_response compress req resp = resp) ∧
    (resp.streaming = false → hasHeader resp.headers "Content-Encoding" = false →
      accepts_brotli_encoding req = true →
      ¬resp.content.length < MIN_LEN_RESPONSE_TO_PROCESS →
      (compress resp.content).length < resp.content.length →
      (brotli_process_response compress req resp).content = compress resp.content ∧
      headerGet (brotli_process_response compress req resp).headers "Content-Encoding" =
        some "br" ∧
      headerGet (brotli_process_response compress req resp).headers "Content-Length" =
        some (toString (compress resp.content).length) ∧
      ∃ parts,
        headerGet (brotli_process_response compress req resp).headers "Vary" =
          some (", ".intercalate parts) ∧
        parts.any (fun v => strLower v == "accept-encoding") = true) := by
  by_cases hskip : resp.streaming = true ∨ hasHeader resp.headers "Content-Encoding" = true ∨
      accepts_brotli_encoding req = false ∨
      resp.content.length < MIN_LEN_RESPONSE_TO_PROCESS
  · have heq := brotli_process_of_skip compress req resp hskip
    refine ⟨by rw [heq], fun _ => heq, ?_⟩
    intro h1 h2 h3 h4 _
    exfalso
    rcases hskip with h | h | h | h
    · rw [h1] at h; exact Bool.false_ne_true h
    · rw [h2] at h; exact Bool.false_ne_true h
    · rw [h3] at h; simp at h
    · exact h4 h
  · push_neg at hskip
    obtain ⟨h1, h2, h3, h4⟩ := hskip
    have h1' : resp.streaming = false := Bool.not_eq_true _ ▸ (Bool.eq_false_iff.mpr h1)
    have h2' : hasHeader resp.headers "Content-Encoding" = false := Bool.eq_false_iff.mpr h2
    have h3' : accepts_brotli_encoding req = true := by
      cases hx : accepts_brotli_encoding req
      · exact absurd hx h3
      · rfl
    have heq := brotli_process_of_not_skip compress req resp h1' h2' h3' (by omega)
    by_cases hge : (compress resp.content).length ≥ resp.content.length
    · have hself := brotli_stage_eq_self compress resp hge
      refine ⟨by rw [heq, hself], fun _ => by rw [heq, hself], ?_⟩
      intro _ _ _ _ hlt
      omega
    · refine ⟨?_, fun hge' => absurd hge' hge, ?_⟩
      · rw [heq, brotli_stage_content compress resp hge]
        omega
      · intro _ _ _ _ _
        rw [heq]
        exact ⟨brotli_stage_content compress resp hge,
          brotli_stage_content_encoding compress resp hge,
          brotli_stage_content_length compress resp hge,
          brotli_stage_vary compress resp hge⟩

theorem brotli_length_spec_witness :
    (brotli_process_response (fun _ => [0]) reqBr bigResp).content = [0] ∧
    headerGet (brotli_process_response (fun _ => [0]) reqBr bigResp).headers
      "Content-Encoding" = some "br" ∧
    (brotli_process_response (fun _ => [0]) reqBr bigResp).content.length ≤
      bigResp.content.length := by
  have h := brotli_length_spec (fun _ => [0]) reqBr bigResp
  have h3 := h.2.2 rfl (by decide) (by decide) (by decide) (by decide)
  exact ⟨h3.1, h3.2.1, h.1⟩

/-- C3: `RemoveSlashMiddleware.process_response` answers a permanent
(301) redirect to the request path without its final character — with the
(encoded) query string appended after a `?` when the request has query
parameters — exactly when the response is a 404, `path_info` ends with a
slash, `path_info` does not resolve, and `path_info` without the trailing
slash does resolve; in every other case the original response is returned
unmodified. -/
theorem removeSlash_redirect_spec (resolves : Option String → String → Bool)
    (iriToUri : String → String) (req : Request) (resp : Response) :
    (resp.status_code = 404 → endsWithSlash req.path_info = true →
      is_valid_path resolves req req.path_info = false →
      is_valid_path resolves req (dropLast1 req.path_info) = true →
      (removeSlash_process_response resolves iriToUri req resp).1 =
        HttpResponsePermanentRedirect
          (if req.GET.isEmpty then dropLast1 req.path
           else dropLast1 req.path ++ "?" ++
             iriToUri (metaGetD req.META "QUERY_STRING" "")) ∧
      (removeSlash_process_response resolves iriToUri req resp).1.status_code = 301) ∧
    (¬(resp.status_code = 404 ∧ endsWithSlash req.path_info = true ∧
        is_valid_path resolves req req.path_info = false ∧
        is_valid_path resolves req (dropLast1 req.path_info) = true) →
      (removeSlash_process_response resolves iriToUri req resp).1 = resp) := by
  constructor
  · intro h1 h2 h3 h4
    have hc : (resp.status_code == 404 && endsWithSlash req.path_info &&
        !is_valid_path resolves req req.path_info &&
        is_valid_path resolves req (dropLast1 req.path_info)) = true := by
      simp [h1, h2, h3, h4]
    unfold removeSlash_process_response
    rw [if_pos hc]
    by_cases hg : req.GET.isEmpty = true
    · rw [if_pos hg, if_pos hg]
      exact ⟨rfl, rfl⟩
    · rw [if_neg hg, if_neg hg]
      simp only [safe_query_string]
      rw [metaGetD_metaSet_self]
      exact ⟨rfl, rfl⟩
  · intro hnot
    unfold removeSlash_process_response
    rw [if_neg ?_]
    · intro hc
      apply hnot
      simp only [Bool.and_eq_true, beq_iff_eq, Bool.not_eq_true'] at hc
      exact ⟨hc.1.1.1, hc.1.1.2, hc.1.2, hc.2⟩

theorem removeSlash_redirect_spec_witness :
    (removeSlash_process_response c3resolves (fun s => s) c3req c3resp).1 =
      HttpResponsePermanentRedirect "/en-US/docs/Web?x=1" := by
  have h := (removeSlash_redirect_spec c3resolves (fun s => s) c3req c3resp).1
    rfl (by decide) (by decide) (by decide)
  rw [h.1]
  decide

/-- C10: after `RemoveSlashMiddleware.process_response` returns, the
request's `META['QUERY_STRING']` has the value it had before the call,
and the `safe_query_string` context manager restores the original value
for every body — also one that raises while the redirect target is being
built. -/
theorem queryString_restored (resolves : Option String → String → Bool)
    (iriToUri : String → String) (req : Request) (resp : Response) :
    metaGetD (removeSlash_process_response resolves iriToUri req resp).2.META
      "QUERY_STRING" "" = metaGetD req.META "QUERY_STRING" "" ∧
    ∀ (ε α : Type) (body : Request → Except (ε × Request) (α × Request)),
      (match safe_query_string iriToUri body req with
       | .ok (_, r) => metaGetD r.META "QUERY_STRING" ""
       | .error (_, r) => metaGetD r.META "QUERY_STRING" "") =
      metaGetD req.META "QUERY_STRING" "" := by
  constructor
  · unfold removeSlash_process_response
    by_cases hc : (resp.status_code == 404 && endsWithSlash req.path_info &&
        !is_valid_path resolves req req.path_info &&
        is_valid_path resolves req (dropLast1 req.path_info)) = true
    · rw [if_pos hc]
      by_cases hg : req.GET.isEmpty = true
      · rw [if_pos hg]
      · rw [if_neg hg]
        simp only [safe_query_string]
        exact metaGetD_metaSet_self _ _ _ _
    · rw [if_neg hc]
  · intro ε α body
    simp only [safe_query_string]
    cases hb : body { req with META := metaSet req.META "QUERY_STRING" (iriToUri (metaGetD req.META "QUERY_STRING" "")) } with
    | ok p =>
      obtain ⟨a, r⟩ := p
      exact metaGetD_metaSet_self _ _ _ _
    | error p =>
      obtain ⟨e, r⟩ := p
      exact metaGetD_metaSet_self _ _ _ _

/-- C4: `SetRemoteAddrFromForwardedFor.process_request` sets
`META['REMOTE_ADDR']` to the first comma-separated entry of
`META['HTTP_X_FORWARDED_FOR']` with surrounding whitespace stripped when
that header is present, and leaves the request entirely unchanged when it
is absent. -/
theorem setRemoteAddr_spec (req : Request) :
    (∀ s, metaGet req.META "HTTP_X_FORWARDED_FOR" = some s →
      setRemoteAddr_process_request req =
        { req with META := metaSet req.META "REMOTE_ADDR" (pyStrip ((splitComma s).headD "")) }) ∧
    (metaGet req.META "HTTP_X_FORWARDED_FOR" = none →
      setRemoteAddr_process_request req = req) := by
  constructor
  · intro s hs
    unfold setRemoteAddr_process_request
    rw [hs]
  · intro hn
    unfold setRemoteAddr_process_request
    rw [hn]

theorem setRemoteAddr_spec_witness :
    metaGet (setRemoteAddr_process_request c4req).META "REMOTE_ADDR" =
      some "1.2.3.4" := by
  have h := (setRemoteAddr_spec c4req).1 " 1.2.3.4 , 5.6.7.8" (by decide)
  rw [h]
  decide

/-- C5 (code bug): the docstring of `Forbidden403Middleware` says the
403 page is rendered whenever `response.status_code == 403`, but the code
tests `isinstance(response, HttpResponseForbidden)`: a 403 response that
is not an `HttpResponseForbidden` instance — as built by
`HttpResponse(status=403)` — is returned unmodified instead of being
replaced by `handler403(request)`. -/
theorem forbidden403_not_instance_unmodified (handler403 : Request → Response)
    (req : Request) :
    c5resp.status_code = 403 ∧ c5resp.forbiddenInstance = false ∧
    forbidden403_process_response handler403 req c5resp = c5resp :=
  ⟨rfl, rfl, rfl⟩

/-- C6: `LegacyDomainRedirectsMiddleware.process_request` answers a
permanent (301) redirect to the request's full path joined onto
`settings.SITE_URL` exactly when the request's host is one of
`settings.LEGACY_HOSTS`, and `None` otherwise. -/
theorem legacyDomain_spec (settings : Settings)
    (urljoin : String → String → String) (req : Request) :
    (req.host ∈ settings.LEGACY_HOSTS →
      legacyDomainRedirects_process_request settings urljoin req =
        some (HttpResponsePermanentRedirect (urljoin settings.SITE_URL req.full_path))) ∧
    (req.host ∉ settings.LEGACY_HOSTS →
      legacyDomainRedirects_process_request settings urljoin req = none) ∧
    (HttpResponsePermanentRedirect (urljoin settings.SITE_URL req.full_path)).status_code
      = 301 := by
  refine ⟨?_, ?_, rfl⟩
  · intro h
    unfold legacyDomainRedirects_process_request
    rw [if_pos (by simpa using h)]
  · intro h
    unfold legacyDomainRedirects_process_request
    rw [if_neg (by simpa using h)]

theorem legacyDomain_spec_witness :
    legacyDomainRedirects_process_request c6settings (fun a b => a ++ b) c6req =
      some (HttpResponsePermanentRedirect
        ("https://developer.mozilla.org" ++ "/en-US/?x=1")) :=
  (legacyDomain_spec c6settings (fun a b => a ++ b) c6req).1 (by decide)

/-- C7: when the request's `lang` query parameter is a configured
language, `LocaleURLMiddleware.process_request` answers a temporary 302
redirect (never a 301) to the locale-stripped path rebuilt with the
`lang` key removed from the query parameters — so the target carries no
`lang` parameter; when `lang` is absent or not configured the `lang`
branch produces no redirect and the rest of the function runs. -/
theorem locale_lang_spec (settings : Settings) (quote : String → String)
    (splitPath : String → String × String) (prefixerOf : Request → PrefixerM)
    (req : Request) :
    (∀ l, (req.GET.find? (fun p => p.1 == "lang")).map (·.2) = some l →
      (settings.LANGUAGES.map (·.1)).contains l = true →
      locale_process_request settings quote splitPath prefixerOf req =
        (some (HttpResponseRedirect (urlparams
          ((prefixerOf req).fix "" (prefixerOf req).shortened_path)
          (req.GET.filter (fun p => p.1 != "lang")))), req) ∧
      (HttpResponseRedirect (urlparams
          ((prefixerOf req).fix "" (prefixerOf req).shortened_path)
          (req.GET.filter (fun p => p.1 != "lang")))).status_code = 302 ∧
      (req.GET.filter (fun p => p.1 != "lang")).all (fun p => p.1 != "lang") = true) ∧
    (∀ l, (req.GET.find? (fun p => p.1 == "lang")).map (·.2) = some l →
      (settings.LANGUAGES.map (·.1)).contains l = false →
      locale_process_request settings quote splitPath prefixerOf req =
        locale_process_rest settings quote splitPath (prefixerOf req) req) ∧
    ((req.GET.find? (fun p => p.1 == "lang")).map (·.2) = none →
      locale_process_request settings quote splitPath prefixerOf req =
        locale_process_rest settings quote splitPath (prefixerOf req) req) := by
  refine ⟨?_, ?_, ?_⟩
  · intro l hl hmem
    refine ⟨?_, rfl, ?_⟩
    · simp only [locale_process_request, hl]
      rw [if_pos hmem]
    · exact List.all_eq_true.mpr (fun p hp => (List.mem_filter.mp hp).2)
  · intro l hl hmem
    simp only [locale_process_request, hl]
    rw [if_neg (by rw [hmem]; exact Bool.false_ne_true)]
  · intro hl
    simp only [locale_process_request, hl]

theorem locale_lang_spec_witness :
    (locale_process_request c7settings (fun s => s) (fun s => ("", s))
      c7prefixerOf c7req).1 =
      some (HttpResponseRedirect "/docs/Web?q=2") := by
  have h := (locale_lang_spec c7settings (fun s => s) (fun s => ("", s))
    c7prefixerOf c7req).1 "en-US" (by decide) (by decide)
  rw [h.1]
  decide

/-- C8: `RestrictedEndpointsMiddleware.process_request` sets
`request.urlconf` to `'kuma.urls_untrusted'` exactly when
`ENABLE_RESTRICTIONS_BY_HOST` is set and the host is untrusted, leaves
the request unchanged otherwise, and modifies no other field of the
request in either case. -/
theorem restrictedEndpoints_spec (settings : Settings)
    (is_untrusted : Request → Bool) (req : Request) :
    (settings.ENABLE_RESTRICTIONS_BY_HOST = true → is_untrusted req = true →
      restrictedEndpoints_process_request settings is_untrusted req =
        { req with urlconf := some "kuma.urls_untrusted" }) ∧
    (settings.ENABLE_RESTRICTIONS_BY_HOST = false ∨ is_untrusted req = false →
      restrictedEndpoints_process_request settings is_untrusted req = req) ∧
    ((restrictedEndpoints_process_request settings is_untrusted req).path = req.path ∧
     (restrictedEndpoints_process_request settings is_untrusted req).path_info =
       req.path_info ∧
     (restrictedEndpoints_process_request settings is_untrusted req).META = req.META ∧
     (restrictedEndpoints_process_request settings is_untrusted req).GET = req.GET ∧
     (restrictedEndpoints_process_request settings is_untrusted req).host = req.host ∧
     (restrictedEndpoints_process_request settings is_untrusted req).full_path =
       req.full_path ∧
     (restrictedEndpoints_process_request settings is_untrusted req).LANGUAGE_CODE =
       req.LANGUAGE_CODE) := by
  refine ⟨?_, ?_, ?_⟩
  · intro h1 h2
    unfold restrictedEndpoints_process_request
    rw [if_pos (by rw [h1, h2]; rfl)]
  · intro h
    unfold restrictedEndpoints_process_request
    rw [if_neg ?_]
    intro hc
    rcases h with h | h <;> rw [h] at hc <;> simp at hc
  · by_cases hc : (settings.ENABLE_RESTRICTIONS_BY_HOST && is_untrusted req) = true <;>
      unfold restrictedEndpoints_process_request <;> simp [hc]

theorem restrictedEndpoints_spec_witness :
    restrictedEndpoints_process_request c8settings c8untrusted c8req =
      { c8req with urlconf := some "kuma.urls_untrusted" } :=
  (restrictedEndpoints_spec c8settings c8untrusted c8req).1 rfl (by decide)

/-- C9: the ETag-preserving `GZipMiddleware.process_response` subclass:
whenever the input response has an ETag header and the returned response
has one at all, the returned ETag is exactly the original value, for any
behaviour of the parent Django `GZipMiddleware.process_response`. -/
theorem gzip_etag_preserved (superProcess : Request → Response → Response)
    (req : Request) (resp : Response) (e : String)
    (h : headerGet resp.headers "etag" = some e) :
    ∀ e', headerGet (gzip_process_response superProcess req resp).headers "etag" =
      some e' → e' = e := by
  intro e' he'
  have hg : gzip_process_response superProcess req resp =
      if hasHeader (superProcess req resp).headers "etag" = true then
        { superProcess req resp with
            headers := headerSet (superProcess req resp).headers "etag" e }
      else superProcess req resp := by
    unfold gzip_process_response
    rw [h]
  by_cases hh : hasHeader (superProcess req resp).headers "etag" = true
  · rw [hg, if_pos hh] at he'
    have he2 : headerGet (headerSet (superProcess req resp).headers "etag" e) "etag" =
        some e' := he'
    rw [headerGet_headerSet_self] at he2
    exact (Option.some.inj he2).symm
  · rw [hg, if_neg hh] at he'
    exfalso
    apply hh
    unfold hasHeader
    rw [he']
    rfl

theorem gzip_etag_preserved_witness :
    headerGet (gzip_process_response c9sp c9req c9resp).headers "etag" =
      some "orig" := by
  cases hx : headerGet (gzip_process_response c9sp c9req c9resp).headers "etag" with
  | none => exact absurd hx (by decide)
  | some e' =>
    rw [gzip_etag_preserved c9sp c9req c9resp "orig" (by decide) e' hx]

end Kuma
